import Mathlib

/-!
Verification development for the streaming voice-session pipeline
(audio framing, energy VAD, barge-in detection, sentence-boundary
detection, LLM response chunking, TTS synthesis bridge, WebSocket
session coordinator, and the client-side playback jitter buffer).

Each TypeScript component is shallowly embedded: byte buffers become
`List Nat`, JavaScript strings become `String`/`List Char`, floating
point quantities that only feed comparisons become `ℚ`, asynchronous
streaming code becomes an explicit labelled step machine, and
JavaScript `NaN`/throw behaviour is made explicit with dedicated
sum types.
-/

/-! ### JavaScript character and string primitives

These model the character classes used by the regexes in the source
(`[.!?]`, `\s`, `\w`) and `String.prototype.trim`.  Only the ASCII
whitespace characters are modelled; none of the inputs in question
contain exotic Unicode whitespace. -/

/-- The characters of the sentence-terminator class `[.!?]` used by both
`SentenceBoundaryDetector.sentenceEndPattern` and the
`sentenceBoundary` regex in `GeminiClient`. -/
def isTermPunct (c : Char) : Bool :=
  c == '.' || c == '!' || c == '?'

/-- ASCII fragment of the JavaScript `\s` class (space, tab, LF, VT, FF, CR). -/
def isJsWs (c : Char) : Bool :=
  c == ' ' || c == '\t' || c == '\n' || c == '\r' ||
  c == Char.ofNat 11 || c == Char.ofNat 12

/-- The JavaScript `\w` class: `[A-Za-z0-9_]`. -/
def isWordChar (c : Char) : Bool :=
  ('a' ≤ c && c ≤ 'z') || ('A' ≤ c && c ≤ 'Z') || ('0' ≤ c && c ≤ '9') || c == '_'

/-- `String.prototype.trim` on a character list: drop whitespace from
both ends. -/
def jsTrimList (l : List Char) : List Char :=
  ((l.dropWhile isJsWs).reverse.dropWhile isJsWs).reverse

/-- `String.prototype.trim` on a `String`. -/
def jsTrim (s : String) : String :=
  String.mk (jsTrimList s.toList)

/-! ### Audio Framer (`AudioChunker`, `utils/audioChunker.ts`)

`addData` concatenates the incoming bytes onto the internal buffer and
then runs `while (this.buffer.length >= this.chunkSize)`, emitting
`chunkSize`-byte frames from the front.  The loop is modelled with a
fuel argument (one unit per emitted chunk suffices, so the buffer
length is enough fuel); the JavaScript loop would not terminate for
`chunkSize = 0`, so the emitting branch additionally requires
`0 < chunkSize`, and the round-trip theorem assumes a positive frame
size.  Only the payload bytes of each `AudioChunk` are modelled; the
`timestamp`/`sampleRate`/`channels`/`format` metadata fields do not
affect which bytes are emitted. -/

structure ChunkerState where
  buffer : List Nat
  chunkSize : Nat
  deriving Repr, DecidableEq

/-- The constructor computes
`chunkSize = floor((chunkSizeMs / 1000) * sampleRate * channels) * bytesPerSample`. -/
def AudioChunker.mkChunkSize (chunkSizeMs sampleRate channels bytesPerSample : ℕ) : ℕ :=
  (Nat.floor ((chunkSizeMs * sampleRate * channels : ℚ) / 1000)) * bytesPerSample

/-- A fresh `AudioChunker` (`this.buffer = Buffer.alloc(0)`). -/
def AudioChunker.init (chunkSize : Nat) : ChunkerState :=
  ⟨[], chunkSize⟩

/-- The `while (this.buffer.length >= this.chunkSize)` loop of `addData`:
emit `take chunkSize` and keep `drop chunkSize`, repeatedly. -/
def AudioChunker.emitChunks (fuel : Nat) (chunkSize : Nat) (buf : List Nat) :
    List (List Nat) × List Nat :=
  match fuel with
  | 0 => ([], buf)
  | fuel + 1 =>
    if 0 < chunkSize ∧ chunkSize ≤ buf.length then
      let rec_ := AudioChunker.emitChunks fuel chunkSize (buf.drop chunkSize)
      (buf.take chunkSize :: rec_.1, rec_.2)
    else
      ([], buf)

/-- `AudioChunker.addData`: append the data, emit all complete frames,
retain the remainder. -/
def AudioChunker.addData (s : ChunkerState) (data : List Nat) :
    List (List Nat) × ChunkerState :=
  let buf := s.buffer ++ data
  let out := AudioChunker.emitChunks buf.length s.chunkSize buf
  (out.1, { s with buffer := out.2 })

/-- `AudioChunker.flush`: emit the (possibly short) remainder, if any,
and clear the buffer. -/
def AudioChunker.flush (s : ChunkerState) : Option (List Nat) × ChunkerState :=
  if s.buffer = [] then (none, s)
  else (some s.buffer, { s with buffer := [] })

/-- Feed a sequence of byte buffers through `addData`, collecting all
emitted frames. -/
def AudioChunker.runAdds (s : ChunkerState) (inputs : List (List Nat)) :
    List (List Nat) × ChunkerState :=
  match inputs with
  | [] => ([], s)
  | d :: ds =>
    let step := AudioChunker.addData s d
    let rest := AudioChunker.runAdds step.2 ds
    (step.1 ++ rest.1, rest.2)

theorem AudioChunker.emitChunks_join (fuel chunkSize : Nat) (buf : List Nat) :
    (AudioChunker.emitChunks fuel chunkSize buf).1.flatten ++
      (AudioChunker.emitChunks fuel chunkSize buf).2 = buf := by
  induction fuel generalizing buf with
  | zero => simp [AudioChunker.emitChunks]
  | succ n ih =>
    by_cases h : 0 < chunkSize ∧ chunkSize ≤ buf.length
    · simp only [AudioChunker.emitChunks, if_pos h, List.flatten_cons, List.append_assoc]
      rw [ih (buf.drop chunkSize)]
      exact List.take_append_drop _ _
    · simp [AudioChunker.emitChunks, if_neg h]

theorem AudioChunker.emitChunks_length (fuel chunkSize : Nat) (buf : List Nat) :
    ∀ c ∈ (AudioChunker.emitChunks fuel chunkSize buf).1, c.length = chunkSize := by
  induction fuel generalizing buf with
  | zero => simp [AudioChunker.emitChunks]
  | succ n ih =>
    by_cases h : 0 < chunkSize ∧ chunkSize ≤ buf.length
    · simp only [AudioChunker.emitChunks, if_pos h]
      intro c hc
      rcases List.mem_cons.mp hc with h1 | h2
      · subst h1; exact List.length_take_of_le h.2
      · exact ih (buf.drop chunkSize) c h2
    · simp [AudioChunker.emitChunks, if_neg h]

theorem AudioChunker.runAdds_join (s : ChunkerState) (inputs : List (List Nat)) :
    (AudioChunker.runAdds s inputs).1.flatten ++ (AudioChunker.runAdds s inputs).2.buffer
      = s.buffer ++ inputs.flatten := by
  induction inputs generalizing s with
  | nil => simp [AudioChunker.runAdds]
  | cons d ds ih =>
    have h2 : (AudioChunker.addData s d).1.flatten ++ (AudioChunker.addData s d).2.buffer
        = s.buffer ++ d := by
      simpa [AudioChunker.addData] using
        AudioChunker.emitChunks_join (s.buffer ++ d).length s.chunkSize (s.buffer ++ d)
    simp only [AudioChunker.runAdds, List.flatten_append, List.flatten_cons,
      List.append_assoc]
    rw [ih, ← List.append_assoc, h2, List.append_assoc]

theorem AudioChunker.runAdds_chunkSize (s : ChunkerState) (inputs : List (List Nat)) :
    ∀ c ∈ (AudioChunker.runAdds s inputs).1, c.length = s.chunkSize := by
  induction inputs generalizing s with
  | nil => simp [AudioChunker.runAdds]
  | cons d ds ih =>
    simp only [AudioChunker.runAdds]
    intro c hc
    rcases List.mem_append.mp hc with h1 | h2
    · exact AudioChunker.emitChunks_length _ _ _ c h1
    · have := ih (AudioChunker.addData s d).2 c h2
      simpa [AudioChunker.addData] using this

/-- C3: feeding any sequence of byte buffers through `addData` and then
`flush` reproduces the input byte stream exactly (no loss, no
duplication); every frame emitted by `addData` has exactly the
configured frame size; and `flush` leaves the internal buffer empty.
The frame size is assumed positive (the JavaScript loop diverges at
frame size 0). -/
theorem audioChunker_roundTrip (chunkSize : Nat) (inputs : List (List Nat))
    (hpos : 0 < chunkSize) :
    (AudioChunker.runAdds (AudioChunker.init chunkSize) inputs).1.flatten ++
        ((AudioChunker.flush (AudioChunker.runAdds (AudioChunker.init chunkSize) inputs).2).1.getD [])
      = inputs.flatten ∧
    (∀ c ∈ (AudioChunker.runAdds (AudioChunker.init chunkSize) inputs).1,
      c.length = chunkSize) ∧
    (AudioChunker.flush (AudioChunker.runAdds (AudioChunker.init chunkSize) inputs).2).2.buffer
      = [] := by
  refine ⟨?_, ?_, ?_⟩
  · have h := AudioChunker.runAdds_join (AudioChunker.init chunkSize) inputs
    have hinit : (AudioChunker.init chunkSize).buffer = [] := rfl
    rw [hinit, List.nil_append] at h
    have hflush :
        ((AudioChunker.flush (AudioChunker.runAdds (AudioChunker.init chunkSize) inputs).2).1.getD [])
          = (AudioChunker.runAdds (AudioChunker.init chunkSize) inputs).2.buffer := by
      by_cases hb : (AudioChunker.runAdds (AudioChunker.init chunkSize) inputs).2.buffer = []
      · simp [AudioChunker.flush, hb]
      · simp [AudioChunker.flush, hb]
    rw [hflush, h]
  · intro c hc
    have := AudioChunker.runAdds_chunkSize (AudioChunker.init chunkSize) inputs c hc
    simpa [AudioChunker.init] using this
  · by_cases hb : (AudioChunker.runAdds (AudioChunker.init chunkSize) inputs).2.buffer = []
    · simp [AudioChunker.flush, hb]
    · simp [AudioChunker.flush, hb]

/-- Witness for `audioChunker_roundTrip` at frame size 2 with inputs
`[[1,2,3],[4]]`. -/
theorem audioChunker_roundTrip_witness :
    0 < 2 ∧
    ((AudioChunker.runAdds (AudioChunker.init 2) [[1,2,3],[4]]).1.flatten ++
        ((AudioChunker.flush (AudioChunker.runAdds (AudioChunker.init 2) [[1,2,3],[4]]).2).1.getD [])
      = ([[1,2,3],[4]] : List (List Nat)).flatten ∧
    (∀ c ∈ (AudioChunker.runAdds (AudioChunker.init 2) [[1,2,3],[4]]).1, c.length = 2) ∧
    (AudioChunker.flush (AudioChunker.runAdds (AudioChunker.init 2) [[1,2,3],[4]]).2).2.buffer
      = []) :=
  ⟨by decide, audioChunker_roundTrip 2 [[1,2,3],[4]] (by decide)⟩

/-! ### Energy VAD (`VADGate.calculateEnergy`, `utils/vadGate.ts`)

`calculateEnergy` runs `new Int16Array(audioData.buffer)` — viewing the
frame's backing store as 16-bit samples (this construction throws a
`RangeError` when the backing `ArrayBuffer` has odd byte length, as for
a standalone odd-length `Buffer`) — then computes
`Math.sqrt(sum / samples.length)` where `sum` is the sum of squared
normalised samples.  For a zero-sample frame JavaScript evaluates
`0 / 0 = NaN` and `Math.sqrt(NaN) = NaN`.

The embedding tracks the value `sum / samples.length` (the square of
the returned energy) exactly in `ℚ`, with `NaN` as an explicit
constructor: the code's energy is the square root of the tracked
rational, so it is zero exactly when the tracked value is `num 0` and
`NaN` exactly when the tracked value is `nan`. -/

/-- A JavaScript number that is either an ordinary (rational) value or `NaN`. -/
inductive JsNum
  | num (q : ℚ)
  | nan
  deriving Repr, DecidableEq

/-- A JavaScript exception relevant here. -/
inductive JsErr
  | rangeError
  deriving Repr, DecidableEq

/-- Decode a little-endian signed 16-bit sample from two bytes. -/
def int16OfBytes (lo hi : Nat) : Int :=
  let v : Int := lo + 256 * hi
  if v < 32768 then v else v - 65536

/-- `new Int16Array(...)` view of an even-length byte list. -/
def bytesToInt16 : List Nat → List Int
  | [] => []
  | [_] => []
  | lo :: hi :: rest => int16OfBytes lo hi :: bytesToInt16 rest

/-- `sum += normalized * normalized` over all samples, exactly. -/
def sumSquares (samples : List Int) : ℚ :=
  samples.foldl (fun acc s => acc + ((s : ℚ) / 32768) * ((s : ℚ) / 32768)) 0

/-- `VADGate.calculateEnergy`, modelled up to the final square root: the
returned value is `Math.sqrt` of the tracked quantity, which preserves
both zeroness and `NaN`-ness.  A standalone buffer of odd length makes
`new Int16Array(audioData.buffer)` throw `RangeError`; a zero-sample
buffer yields `0 / 0 = NaN`. -/
def VADGate.calculateEnergy (bytes : List Nat) : Except JsErr JsNum :=
  if bytes.length % 2 ≠ 0 then Except.error JsErr.rangeError
  else
    let samples := bytesToInt16 bytes
    if samples.length = 0 then Except.ok JsNum.nan
    else Except.ok (JsNum.num (sumSquares samples / samples.length))

/-- C4 (refuting theorem): the empty frame yields energy `NaN`, not `0`,
and a one-byte (malformed) standalone frame makes `calculateEnergy`
throw a `RangeError` rather than return at all. -/
theorem vadGate_energy_empty_is_nan :
    VADGate.calculateEnergy [] = Except.ok JsNum.nan ∧
    VADGate.calculateEnergy [] ≠ Except.ok (JsNum.num 0) ∧
    VADGate.calculateEnergy [7] = Except.error JsErr.rangeError := by
  refine ⟨rfl, ?_, rfl⟩
  intro h
  simpa [VADGate.calculateEnergy, bytesToInt16] using h

/-! ### Barge-in Detector (`BargeInDetector`, `utils/vadGate.ts` lines 147–219)

`BargeInDetector.processAudio(audioData)` first obtains
`vadResult = this.vad.processAudio(audioData)` from the wrapped
`VADGate` and then consumes only `vadResult.isSpeech` and
`vadResult.energy` (lines 171–181).  The wrapped VAD computes its
result deterministically per frame, so the debounce logic is embedded
as a transition system over the per-frame `VADResult`s, interleaved
with `setTTSPlayback` calls from the session coordinator.  Energy is
modelled as `ℚ` (it is only compared against the barge-in threshold);
the `confidence`/`timestamp` fields of `VADResult` are not read by the
barge-in logic and are omitted. -/

structure VADResult where
  isSpeech : Bool
  energy : ℚ
  deriving Repr, DecidableEq

structure BargeInCfg where
  bargeInThreshold : ℚ
  minConsecutiveFrames : Nat
  deriving Repr, DecidableEq

/-- Constructor defaults: `bargeInThreshold = 0.02`,
`minConsecutiveFrames = 3`. -/
def BargeInDetector.defaultCfg : BargeInCfg := ⟨1/50, 3⟩

structure BargeInState where
  isPlayingTTS : Bool
  consecutiveSpeechFrames : Nat
  deriving Repr, DecidableEq

/-- Freshly constructed detector: `isPlayingTTS = false`, counter 0. -/
def BargeInDetector.init : BargeInState := ⟨false, 0⟩

/-- The frame condition of line 172:
`vadResult.isSpeech && vadResult.energy > this.bargeInThreshold`. -/
def bargeInQualifies (cfg : BargeInCfg) (v : VADResult) : Bool :=
  v.isSpeech && decide (cfg.bargeInThreshold < v.energy)

/-- `BargeInDetector.processAudio` (lines 163–184), given the wrapped
VAD's result for the frame: returns the emitted `shouldBargeIn`
together with the updated detector state. -/
def BargeInDetector.processFrame (cfg : BargeInCfg) (s : BargeInState) (v : VADResult) :
    Bool × BargeInState :=
  if s.isPlayingTTS then
    if bargeInQualifies cfg v then
      (decide (cfg.minConsecutiveFrames ≤ s.consecutiveSpeechFrames + 1),
       { s with consecutiveSpeechFrames := s.consecutiveSpeechFrames + 1 })
    else
      (false, { s with consecutiveSpeechFrames := 0 })
  else
    (false, s)

/-- `BargeInDetector.setTTSPlayback` (lines 189–194): set the flag and
reset the counter when playback turns off. -/
def BargeInDetector.setTTSPlayback (s : BargeInState) (b : Bool) : BargeInState :=
  { s with isPlayingTTS := b,
           consecutiveSpeechFrames := if b then s.consecutiveSpeechFrames else 0 }

/-- An input event for the barge-in detector: an audio frame (represented
by its `VADResult`) or a `setTTSPlayback` call. -/
inductive BEvent
  | frame (v : VADResult)
  | setTTS (b : Bool)
  deriving Repr, DecidableEq

def bargeStep (cfg : BargeInCfg) (s : BargeInState) : BEvent → BargeInState
  | BEvent.frame v => (BargeInDetector.processFrame cfg s v).2
  | BEvent.setTTS b => BargeInDetector.setTTSPlayback s b

/-- The detector state after a sequence of events, from a fresh detector. -/
def bargeRun (cfg : BargeInCfg) (evs : List BEvent) : BargeInState :=
  evs.foldl (bargeStep cfg) BargeInDetector.init

/-- Number of qualifying frames at the end of the (reversed) event list,
uninterrupted by a non-qualifying frame or a `setTTSPlayback(false)`
call (`setTTSPlayback(true)` does not touch the counter and is
transparent). -/
def trailingQualAux (cfg : BargeInCfg) : List BEvent → Nat
  | [] => 0
  | BEvent.frame v :: t => if bargeInQualifies cfg v then trailingQualAux cfg t + 1 else 0
  | BEvent.setTTS true :: t => trailingQualAux cfg t
  | BEvent.setTTS false :: _ => 0

/-- Length of the maximal trailing run of qualifying frames of an event
sequence. -/
def trailingQual (cfg : BargeInCfg) (evs : List BEvent) : Nat :=
  trailingQualAux cfg evs.reverse

theorem bargeRun_append (cfg : BargeInCfg) (l : List BEvent) (e : BEvent) :
    bargeRun cfg (l ++ [e]) = bargeStep cfg (bargeRun cfg l) e := by
  simp [bargeRun, List.foldl_append]

theorem trailingQual_append_frame (cfg : BargeInCfg) (l : List BEvent) (v : VADResult) :
    trailingQual cfg (l ++ [BEvent.frame v])
      = if bargeInQualifies cfg v then trailingQual cfg l + 1 else 0 := by
  simp [trailingQual, trailingQualAux, List.reverse_append]

theorem trailingQual_append_setTTS (cfg : BargeInCfg) (l : List BEvent) (b : Bool) :
    trailingQual cfg (l ++ [BEvent.setTTS b])
      = if b then trailingQual cfg l else 0 := by
  cases b <;> simp [trailingQual, trailingQualAux, List.reverse_append]

/-- Core invariant: the consecutive-speech counter never exceeds the
trailing qualifying run, and it is zero whenever `isPlayingTTS` is
false. -/
theorem bargeRun_inv (cfg : BargeInCfg) (evs : List BEvent) :
    (bargeRun cfg evs).consecutiveSpeechFrames ≤ trailingQual cfg evs ∧
    ((bargeRun cfg evs).isPlayingTTS = false →
      (bargeRun cfg evs).consecutiveSpeechFrames = 0) := by
  induction evs using List.reverseRecOn with
  | nil => exact ⟨Nat.le_refl 0, fun _ => rfl⟩
  | append_singleton l e ih =>
    rw [bargeRun_append]
    cases e with
    | frame v =>
      rw [trailingQual_append_frame]
      by_cases hTTS : (bargeRun cfg l).isPlayingTTS
      · by_cases hq : bargeInQualifies cfg v
        · simp only [bargeStep, BargeInDetector.processFrame, if_pos hTTS, if_pos hq, hq,
            if_true]
          refine ⟨Nat.succ_le_succ ih.1, ?_⟩
          intro hf
          rw [hTTS] at hf
          exact Bool.noConfusion hf
        · simp only [bargeStep, BargeInDetector.processFrame, if_pos hTTS, if_neg hq, hq,
            if_false]
          exact ⟨Nat.zero_le _, fun _ => rfl⟩
      · have hz := ih.2 (by simpa using hTTS)
        simp only [bargeStep, BargeInDetector.processFrame, if_neg hTTS]
        constructor
        · by_cases hq : bargeInQualifies cfg v <;> simp [hq, hz]
        · intro _; exact hz
    | setTTS b =>
      rw [trailingQual_append_setTTS]
      cases b with
      | false =>
        simp [bargeStep, BargeInDetector.setTTSPlayback]
      | true =>
        simp only [bargeStep, BargeInDetector.setTTSPlayback, if_true]
        exact ⟨ih.1, fun hf => by simp at hf⟩

/-- C1: with the default debounce depth 3, (a) `shouldBargeIn` is `true`
only when `isPlayingTTS` is true, the frame qualifies (VAD speech with
energy above the barge-in threshold), and the trailing run of
consecutive qualifying frames — the new frame included — has length at
least 3; (b) exactly two consecutive qualifying frames followed by a
non-qualifying one never report a barge-in on any of the three frames;
(c) the counter is reset to 0 by `setTTSPlayback(false)` and by any
non-qualifying frame. -/
theorem bargeIn_debounce (cfg : BargeInCfg) (hmin : cfg.minConsecutiveFrames = 3) :
    (∀ evs v, (BargeInDetector.processFrame cfg (bargeRun cfg evs) v).1 = true →
      (bargeRun cfg evs).isPlayingTTS = true ∧ bargeInQualifies cfg v = true ∧
      3 ≤ trailingQual cfg (evs ++ [BEvent.frame v])) ∧
    (∀ evs v1 v2 w, trailingQual cfg evs = 0 →
      bargeInQualifies cfg v1 = true → bargeInQualifies cfg v2 = true →
      bargeInQualifies cfg w = false →
      (BargeInDetector.processFrame cfg (bargeRun cfg evs) v1).1 = false ∧
      (BargeInDetector.processFrame cfg (bargeRun cfg (evs ++ [BEvent.frame v1])) v2).1 = false ∧
      (BargeInDetector.processFrame cfg
        (bargeRun cfg (evs ++ [BEvent.frame v1] ++ [BEvent.frame v2])) w).1 = false) ∧
    (∀ evs, (bargeRun cfg (evs ++ [BEvent.setTTS false])).consecutiveSpeechFrames = 0) ∧
    (∀ evs w, bargeInQualifies cfg w = false →
      (bargeRun cfg (evs ++ [BEvent.frame w])).consecutiveSpeechFrames = 0) := by
  have hout : ∀ evs v, (BargeInDetector.processFrame cfg (bargeRun cfg evs) v).1 = true →
      (bargeRun cfg evs).isPlayingTTS = true ∧ bargeInQualifies cfg v = true ∧
      cfg.minConsecutiveFrames ≤ (bargeRun cfg evs).consecutiveSpeechFrames + 1 := by
    intro evs v h
    by_cases hTTS : (bargeRun cfg evs).isPlayingTTS
    · by_cases hq : bargeInQualifies cfg v
      · refine ⟨hTTS, hq, ?_⟩
        simpa [BargeInDetector.processFrame, hTTS, hq] using h
      · simp [BargeInDetector.processFrame, hTTS, hq] at h
    · simp [BargeInDetector.processFrame, hTTS] at h
  refine ⟨?_, ?_, ?_, ?_⟩
  · intro evs v h
    obtain ⟨hTTS, hq, hle⟩ := hout evs v h
    refine ⟨hTTS, hq, ?_⟩
    rw [trailingQual_append_frame, if_pos hq]
    have hcnt := (bargeRun_inv cfg evs).1
    omega
  · intro evs v1 v2 w h0 hq1 hq2 hw
    have hc0 : (bargeRun cfg evs).consecutiveSpeechFrames = 0 := by
      have := (bargeRun_inv cfg evs).1
      omega
    have hc1 : (bargeRun cfg (evs ++ [BEvent.frame v1])).consecutiveSpeechFrames ≤ 1 := by
      have h1 := (bargeRun_inv cfg (evs ++ [BEvent.frame v1])).1
      rw [trailingQual_append_frame, if_pos hq1, h0] at h1
      omega
    refine ⟨?_, ?_, ?_⟩
    · refine Bool.eq_false_iff.mpr ?_
      intro hcontra
      obtain ⟨_, _, hle⟩ := hout evs v1 hcontra
      omega
    · refine Bool.eq_false_iff.mpr ?_
      intro hcontra
      obtain ⟨_, _, hle⟩ := hout (evs ++ [BEvent.frame v1]) v2 hcontra
      omega
    · refine Bool.eq_false_iff.mpr ?_
      intro hcontra
      obtain ⟨_, hq, _⟩ := hout (evs ++ [BEvent.frame v1] ++ [BEvent.frame v2]) w hcontra
      rw [hq] at hw
      exact Bool.noConfusion hw
  · intro evs
    rw [bargeRun_append]
    simp [bargeStep, BargeInDetector.setTTSPlayback]
  · intro evs w hw
    rw [bargeRun_append]
    by_cases hTTS : (bargeRun cfg evs).isPlayingTTS
    · simp [bargeStep, BargeInDetector.processFrame, hTTS, hw]
    · have hz := (bargeRun_inv cfg evs).2 (by simpa using hTTS)
      simp [bargeStep, BargeInDetector.processFrame, hTTS, hz]

/-- Witness for `bargeIn_debounce`: with TTS playing, three loud speech
frames arm and trigger, and the part-(b) conclusion holds concretely for
two loud frames followed by a quiet one. -/
theorem bargeIn_debounce_witness :
    BargeInDetector.defaultCfg.minConsecutiveFrames = 3 ∧
    ((BargeInDetector.processFrame BargeInDetector.defaultCfg
        (bargeRun BargeInDetector.defaultCfg [BEvent.setTTS true]) ⟨true, 1⟩).1 = false ∧
     (BargeInDetector.processFrame BargeInDetector.defaultCfg
        (bargeRun BargeInDetector.defaultCfg
          ([BEvent.setTTS true] ++ [BEvent.frame ⟨true, 1⟩])) ⟨true, 1⟩).1 = false ∧
     (BargeInDetector.processFrame BargeInDetector.defaultCfg
        (bargeRun BargeInDetector.defaultCfg
          ([BEvent.setTTS true] ++ [BEvent.frame ⟨true, 1⟩] ++ [BEvent.frame ⟨true, 1⟩]))
        ⟨false, 0⟩).1 = false) :=
  ⟨rfl, (bargeIn_debounce BargeInDetector.defaultCfg rfl).2.1 [BEvent.setTTS true]
    ⟨true, 1⟩ ⟨true, 1⟩ ⟨false, 0⟩ rfl
    (by simp only [bargeInQualifies, BargeInDetector.defaultCfg, Bool.true_and,
          decide_eq_true_eq]; norm_num)
    (by simp only [bargeInQualifies, BargeInDetector.defaultCfg, Bool.true_and,
          decide_eq_true_eq]; norm_num)
    (by simp [bargeInQualifies])⟩

/-! ### Sentence Boundary Detector (`SentenceBoundaryDetector`, `utils/sentenceDetector.ts`)

`addText` appends to the buffer and calls `extractSentences`, which
computes `Array.from(workingText.matchAll(/[.!?]+\s+/g))` **once** on
the initial buffer and then walks the matches, using each match's
original index against the *current* (possibly already shortened)
`workingText`.  `isValidSentence` rejects a candidate that is shorter
than `minSentenceLength`, that the abbreviation regex
`/\b(?:Dr|Mr|…)\./gi` *matches anywhere* (the regex is unanchored, and
carries a `g` flag, so `.test` starts from and updates its sticky
`lastIndex`), or that contains no `\w` character.

The boundary matcher is a single-pass maximal-munch scanner: a match of
`[.!?]+\s+` is a maximal run of terminator characters followed by a
maximal run of whitespace (the two classes are disjoint, so greedy
backtracking never shortens a run).  The abbreviation test models the
`g`-flag statefulness: search from `lastIndex`, on success set
`lastIndex` past the match and report true, on failure reset
`lastIndex` to 0 and report false.  Alternatives are tried in source
order, case-insensitively, each requiring a literal `.` after it and a
`\b` before it.  Only the emitted texts are modelled; the
`confidence`/`type` fields of an emitted `SentenceBoundary` are
computed from the text after the decision to emit and do not affect
which texts are emitted. -/

/-- Scanner state for `matchAll(/[.!?]+\s+/g)`. -/
inductive BoundaryScan
  | scan
  | punctRun (start len : Nat)
  | wsRun (start punctLen wsLen : Nat)
  deriving Repr, DecidableEq

/-- Single pass producing every match of `[.!?]+\s+` as
`(index, length)` pairs, leftmost first. -/
def findBoundaryAux : List Char → Nat → BoundaryScan → List (Nat × Nat)
  | [], _, st =>
    match st with
    | BoundaryScan.wsRun s pl wl => [(s, pl + wl)]
    | _ => []
  | c :: rest, i, st =>
    match st with
    | BoundaryScan.scan =>
      if isTermPunct c then findBoundaryAux rest (i + 1) (BoundaryScan.punctRun i 1)
      else findBoundaryAux rest (i + 1) BoundaryScan.scan
    | BoundaryScan.punctRun s l =>
      if isTermPunct c then findBoundaryAux rest (i + 1) (BoundaryScan.punctRun s (l + 1))
      else if isJsWs c then findBoundaryAux rest (i + 1) (BoundaryScan.wsRun s l 1)
      else findBoundaryAux rest (i + 1) BoundaryScan.scan
    | BoundaryScan.wsRun s pl wl =>
      if isJsWs c then findBoundaryAux rest (i + 1) (BoundaryScan.wsRun s pl (wl + 1))
      else if isTermPunct c then
        (s, pl + wl) :: findBoundaryAux rest (i + 1) (BoundaryScan.punctRun i 1)
      else (s, pl + wl) :: findBoundaryAux rest (i + 1) BoundaryScan.scan

def findBoundaryMatches (cs : List Char) : List (Nat × Nat) :=
  findBoundaryAux cs 0 BoundaryScan.scan

/-- The alternatives of the abbreviation regex, in source order. -/
def abbrevAlternatives : List (List Char) :=
  (["Dr", "Mr", "Mrs", "Ms", "Prof", "Sr", "Jr", "vs", "etc", "Inc", "Corp",
    "Ltd", "Co", "St", "Ave", "Rd", "Blvd", "Apt", "No", "Ph.D", "M.D", "B.A",
    "M.A", "U.S", "U.K", "e.g", "i.e", "a.m", "p.m"]).map String.toList

/-- Case-insensitive character comparison (the regex `i` flag). -/
def ciEqChar (a b : Char) : Bool :=
  a.toLower == b.toLower

/-- Case-insensitive literal prefix match. -/
def ciPrefixMatch : List Char → List Char → Bool
  | [], _ => true
  | _ :: _, [] => false
  | p :: ps, c :: cs => ciEqChar p c && ciPrefixMatch ps cs

/-- Try the alternation at the current position: the first alternative
(in source order) that matches and is followed by a literal `.` wins;
returns the total match length. -/
def tryAbbrevAlts : List (List Char) → List Char → Option Nat
  | [], _ => none
  | alt :: rest, cs =>
    if ciPrefixMatch (alt ++ ['.']) cs then some (alt.length + 1)
    else tryAbbrevAlts rest cs

/-- Scan for the leftmost abbreviation match at a position `≥ lastIdx`
with a `\b` before it (every alternative starts with a word character,
so `\b` holds exactly when the previous character is not a word
character); returns the end index of the match. -/
def abbrevSearchAux : List Char → Nat → Nat → Bool → Option Nat
  | [], _, _, _ => none
  | c :: rest, i, lastIdx, prevW =>
    if lastIdx ≤ i ∧ prevW = false then
      match tryAbbrevAlts abbrevAlternatives (c :: rest) with
      | some len => some (i + len)
      | none => abbrevSearchAux rest (i + 1) lastIdx (isWordChar c)
    else abbrevSearchAux rest (i + 1) lastIdx (isWordChar c)

/-- `this.abbreviationPattern.test(text)` for the `g`-flagged regex:
returns the verdict and the regex's updated `lastIndex`. -/
def abbrevTest (lastIdx : Nat) (cs : List Char) : Bool × Nat :=
  match abbrevSearchAux cs 0 lastIdx false with
  | some newIdx => (true, newIdx)
  | none => (false, 0)

/-- `/\w/.test(text)` (stateless: no `g` flag). -/
def hasWordChar (cs : List Char) : Bool :=
  cs.any isWordChar

structure SBDetector where
  buffer : List Char
  abbrevLastIndex : Nat
  minSentenceLength : Nat
  deriving Repr, DecidableEq

/-- A fresh detector with the default `minSentenceLength = 10`. -/
def SentenceBoundaryDetector.init : SBDetector := ⟨[], 0, 10⟩

/-- The match-walking loop of `extractSentences`: the match list was
computed once from the initial buffer; `working` is the current
`workingText`; `ali` is the abbreviation regex's `lastIndex`.  Returns
(emitted sentence texts, final `workingText`, final `lastIndex`).
`substring(0, endIndex)` clamps, hence `take`; candidate texts are
already trimmed, and `trim()` is idempotent, so the abbreviation test
receives the candidate unchanged. -/
def extractGo : List (Nat × Nat) → List Char → Nat → Nat →
    List (List Char) × List Char × Nat
  | [], working, ali, _ => ([], working, ali)
  | (idx, mlen) :: ms, working, ali, minLen =>
    let endIndex := idx + mlen
    let potential := jsTrimList (working.take endIndex)
    if potential.length < minLen then
      extractGo ms working ali minLen
    else
      let t := abbrevTest ali potential
      if t.1 then extractGo ms working t.2 minLen
      else if hasWordChar potential = false then extractGo ms working t.2 minLen
      else
        let out := extractGo ms (jsTrimList (working.drop endIndex)) t.2 minLen
        (potential :: out.1, out.2)

/-- `SentenceBoundaryDetector.addText`: append to the buffer and run
`extractSentences`. -/
def SentenceBoundaryDetector.addText (d : SBDetector) (t : List Char) :
    List (List Char) × SBDetector :=
  let buf := d.buffer ++ t
  let out := extractGo (findBoundaryMatches buf) buf d.abbrevLastIndex d.minSentenceLength
  (out.1, { d with buffer := out.2.1, abbrevLastIndex := out.2.2 })

/-- `SentenceBoundaryDetector.flush`: return the trimmed remainder as a
single incomplete unit (or nothing), clearing the buffer. -/
def SentenceBoundaryDetector.flushBuf (d : SBDetector) : Option (List Char) × SBDetector :=
  if jsTrimList d.buffer = [] then (none, d)
  else (some (jsTrimList d.buffer), { d with buffer := [] })

/-- The input of the claimed test case. -/
def drSmithInput : List Char :=
  "Dr. Smith saw the patient. The visit was routine.".toList

/-- C5 (refuting theorem): on the claimed input, `addText` emits *no*
unit at all — in particular it does not emit
"Dr. Smith saw the patient." — because `isValidSentence` rejects the
candidate: the unanchored abbreviation regex matches the "Dr." at its
*start* (the code's own comment says "Ends with abbreviation", but the
regex tests containment anywhere).  The entire input stays in the
buffer, and a subsequent `flush` would return the whole two-sentence
text as one incomplete unit. -/
theorem sentenceDetector_drSmith_emits_nothing :
    (SentenceBoundaryDetector.addText SentenceBoundaryDetector.init drSmithInput).1 = [] ∧
    (SentenceBoundaryDetector.addText SentenceBoundaryDetector.init drSmithInput).2.buffer
      = drSmithInput ∧
    (SentenceBoundaryDetector.flushBuf
        (SentenceBoundaryDetector.addText SentenceBoundaryDetector.init drSmithInput).2).1
      = some drSmithInput := by
  refine ⟨?_, ?_, ?_⟩ <;> decide

/-! ### Response Stream Bridge mid-stream chunking (`llm/gemini.ts`)

Inside `sendMessage` (lines 236–264) each vendor stream chunk is
appended to `currentSentence`, which is then split with
`currentSentence.split(/[.!?]+\s+/)`.  If the split yields more than
one piece, every piece but the last is trimmed and — when non-empty —
emitted as `finalSentence + '. '` with `isSentenceComplete: true`
(`finalSentence` is the piece itself, or the fixed disclaimer prefix
concatenated with the piece for the very first piece of a session's
first response); the last piece becomes the new `currentSentence`.
Otherwise the raw chunk text is emitted with
`isSentenceComplete: false`.  `handleFunctionResult` (lines 310–338)
contains the identical loop without the disclaimer, i.e. the
`isFirst = false` instance of the same embedding.

`String.split` with this regex is modelled by a single-pass scanner:
a separator is a maximal run of `[.!?]` followed by a maximal run of
whitespace (the classes are disjoint, so greedy matching is maximal
munch, and the leftmost match of a run starts at the run's first
terminator character).  The scanner keeps the reversed current segment
`seg`, a reversed pending terminator-run `pending` (terminators not
yet known to be followed by whitespace), and a flag `skipWs` while
consuming a separator's whitespace run. -/

structure GemEv where
  text : List Char
  isSentenceComplete : Bool
  deriving Repr, DecidableEq

/-- `currentSentence.split(/[.!?]+\s+/)`, single pass. -/
def splitBoundaryLoop : List Char → List Char → List Char → Bool → List (List Char)
  | [], seg, pending, _ => [(pending ++ seg).reverse]
  | c :: cs, seg, pending, skipWs =>
    if skipWs && isJsWs c then splitBoundaryLoop cs seg pending true
    else if isTermPunct c then splitBoundaryLoop cs seg (c :: pending) false
    else if isJsWs c && !pending.isEmpty then
      seg.reverse :: splitBoundaryLoop cs [] [] true
    else splitBoundaryLoop cs (c :: (pending ++ seg)) [] false

def splitBoundary (cs : List Char) : List (List Char) :=
  splitBoundaryLoop cs [] [] false

/-- The disclaimer prefix prepended to the first sentence of a session's
first response (`gemini.ts` line 247); the template ends with a space
before the interpolated sentence. -/
def geminiDisclaimer : List Char :=
  "I".toList ++ [Char.ofNat 39] ++ "m an automated pharmacy assistant and can".toList ++
    [Char.ofNat 39] ++ "t provide medical diagnoses. In emergencies call your local emergency number. ".toList

/-- The `for (let i = 0; i < sentences.length - 1; i++)` emission loop:
trim each non-last piece, skip empties, emit `finalSentence + '. '`
as a sentence-complete chunk. -/
def emitSplit (isFirst : Bool) : Nat → List (List Char) → List GemEv
  | _, [] => []
  | _, [_] => []
  | i, s :: s2 :: rest =>
    let t := jsTrimList s
    if t = [] then emitSplit isFirst (i + 1) (s2 :: rest)
    else
      ⟨(if isFirst ∧ i = 0 then geminiDisclaimer else []) ++ t ++ ['.', ' '], true⟩ ::
        emitSplit isFirst (i + 1) (s2 :: rest)

/-- One iteration of the `for await` body (boundary-splitting part):
append the chunk text, split, and either emit the completed sentences
keeping the last piece, or emit the chunk as a partial. -/
def GeminiClient.processChunk (isFirst : Bool) (cur chunkText : List Char) :
    List GemEv × List Char :=
  let cur2 := cur ++ chunkText
  let ss := splitBoundary cur2
  if 1 < ss.length then (emitSplit isFirst 0 ss, ss.getLast?.getD [])
  else ([⟨chunkText, false⟩], cur2)

/-- The whole `for await` loop over the vendor stream's chunk texts. -/
def GeminiClient.streamLoop (isFirst : Bool) (cur : List Char) :
    List (List Char) → List GemEv × List Char
  | [] => ([], cur)
  | t :: ts =>
    let step := GeminiClient.processChunk isFirst cur t
    let rest := GeminiClient.streamLoop isFirst step.2 ts
    (step.1 ++ rest.1, rest.2)

/-- The post-loop flush (lines 267–272): trimmed leftover, if any, is
emitted as sentence-complete without the appended `'. '`. -/
def GeminiClient.flushTail (cur : List Char) : List GemEv :=
  if jsTrimList cur = [] then [] else [⟨jsTrimList cur, true⟩]

/-- All chunk events of one `sendMessage` response stream
(`handleFunctionResult` is the `isFirst = false` instance). -/
def GeminiClient.sendMessageEvents (isFirst : Bool) (chunks : List (List Char)) :
    List GemEv :=
  (GeminiClient.streamLoop isFirst [] chunks).1 ++
    GeminiClient.flushTail (GeminiClient.streamLoop isFirst [] chunks).2

/-- The "reversed segment ends in no terminator" invariant: after
dropping the (reversed) segment's trailing whitespace, the first
character is not a sentence terminator. -/
def SegOk (seg : List Char) : Prop :=
  ∀ c, (seg.dropWhile isJsWs).head? = some c → isTermPunct c = false

theorem segOk_nil : SegOk [] := by
  intro c h
  simp [List.dropWhile] at h

theorem splitBoundaryLoop_ne_nil (cs seg pending : List Char) (skipWs : Bool) :
    splitBoundaryLoop cs seg pending skipWs ≠ [] := by
  induction cs generalizing seg pending skipWs with
  | nil => simp [splitBoundaryLoop]
  | cons c cs ih =>
    simp only [splitBoundaryLoop]
    by_cases h1 : (skipWs && isJsWs c) = true
    · simp only [h1, if_true]; exact ih _ _ _
    · simp only [h1, if_false]
      by_cases h2 : isTermPunct c = true
      · simp only [h2, if_true]; exact ih _ _ _
      · simp only [h2, if_false]
        by_cases h3 : (isJsWs c && !pending.isEmpty) = true
        · simp only [h3, if_true]; exact List.cons_ne_nil _ _
        · simp only [h3, if_false]; exact ih _ _ _

/-- Every *non-last* piece produced by the split scanner, read forwards,
has no sentence terminator as its last non-whitespace character: a
terminator followed by whitespace would have closed the piece right
there, and a terminator run not followed by whitespace is always
buried under the following ordinary character. -/
theorem splitBoundaryLoop_dropLast_ok (cs : List Char) :
    ∀ seg pending skipWs, SegOk seg →
      ∀ s ∈ (splitBoundaryLoop cs seg pending skipWs).dropLast,
        SegOk s.reverse := by
  induction cs with
  | nil =>
    intro seg pending skipWs _ s hs
    simp [splitBoundaryLoop] at hs
  | cons c cs ih =>
    intro seg pending skipWs hseg s hs
    simp only [splitBoundaryLoop] at hs
    by_cases h1 : (skipWs && isJsWs c) = true
    · rw [if_pos h1] at hs
      exact ih seg pending true hseg s hs
    · rw [if_neg h1] at hs
      by_cases h2 : isTermPunct c = true
      · rw [if_pos h2] at hs
        exact ih seg (c :: pending) false hseg s hs
      · rw [if_neg h2] at hs
        by_cases h3 : (isJsWs c && !pending.isEmpty) = true
        · rw [if_pos h3] at hs
          rw [List.dropLast_cons_of_ne_nil (splitBoundaryLoop_ne_nil cs [] [] true)] at hs
          rcases List.mem_cons.mp hs with h | h
          · subst h
            intro d hd
            rw [List.reverse_reverse] at hd
            exact hseg d hd
          · exact ih [] [] true segOk_nil s h
        · rw [if_neg h3] at hs
          refine ih (c :: (pending ++ seg)) [] false ?_ s hs
          intro d hd
          by_cases hws : isJsWs c = true
          · have hpend : pending = [] := by
              rcases pending with _ | ⟨p, ps⟩
              · rfl
              · simp [hws] at h3
            rw [hpend, List.nil_append] at hd
            rw [List.dropWhile_cons, if_pos hws] at hd
            exact hseg d hd
          · rw [List.dropWhile_cons, if_neg hws] at hd
            simp only [List.head?] at hd
            cases hd
            exact Bool.eq_false_iff.mpr h2

theorem head?_dropWhile_append_last (p : Char → Bool) (c : Char) (hc : p c = true) :
    ∀ l : List Char, ((l ++ [c]).dropWhile p).head? = (l.dropWhile p).head? := by
  intro l
  induction l with
  | nil => simp [List.dropWhile, hc]
  | cons a l ih =>
    by_cases ha : p a = true
    · simpa [List.dropWhile_cons, ha] using ih
    · simp [List.dropWhile_cons, ha]

theorem head?_dropWhile_reverse_dropWhile (p : Char → Bool) (s : List Char) :
    (((s.dropWhile p).reverse).dropWhile p).head? = ((s.reverse).dropWhile p).head? := by
  induction s with
  | nil => rfl
  | cons c t ih =>
    by_cases hc : p c = true
    · rw [List.dropWhile_cons, if_pos hc, ih, List.reverse_cons,
        head?_dropWhile_append_last p c hc]
    · rw [List.dropWhile_cons, if_neg hc]

theorem getLast?_of_reverse (l : List Char) : (l.reverse).getLast? = l.head? := by
  cases l with
  | nil => rfl
  | cons a t => rw [List.reverse_cons, List.getLast?_concat, List.head?_cons]

theorem jsTrimList_getLast? (s : List Char) :
    (jsTrimList s).getLast? = ((s.reverse).dropWhile isJsWs).head? := by
  rw [jsTrimList, getLast?_of_reverse, head?_dropWhile_reverse_dropWhile]

/-- A `SegOk` piece, once trimmed, does not end in a sentence
terminator. -/
theorem segOk_trim_getLast (s : List Char) (h : SegOk s.reverse) :
    ∀ c, (jsTrimList s).getLast? = some c → isTermPunct c = false := by
  intro c hc
  rw [jsTrimList_getLast?] at hc
  rw [← List.reverse_reverse s] at hc
  rw [List.reverse_reverse] at hc
  exact h c hc

theorem emitSplit_ok (isFirst : Bool) :
    ∀ i ss, (∀ s ∈ ss.dropLast, SegOk s.reverse) →
      ∀ e ∈ emitSplit isFirst i ss,
        ∃ t, e.text = t ++ ['.', ' '] ∧ t ≠ [] ∧
          ∀ c, t.getLast? = some c → isTermPunct c = false := by
  intro i ss
  induction ss generalizing i with
  | nil => intro _ e he; simp [emitSplit] at he
  | cons s rest ih =>
    intro hok e he
    cases rest with
    | nil => simp [emitSplit] at he
    | cons s2 rest2 =>
      have hdrop : (s :: s2 :: rest2).dropLast = s :: (s2 :: rest2).dropLast := by
        exact List.dropLast_cons_of_ne_nil (List.cons_ne_nil _ _)
      have hokS : SegOk s.reverse := by
        refine hok s ?_
        rw [hdrop]; exact List.mem_cons_self _ _
      have hokRest : ∀ u ∈ (s2 :: rest2).dropLast, SegOk u.reverse := by
        intro u hu
        refine hok u ?_
        rw [hdrop]; exact List.mem_cons_of_mem _ hu
      simp only [emitSplit] at he
      by_cases ht : jsTrimList s = []
      · rw [if_pos ht] at he
        exact ih (i + 1) hokRest e he
      · rw [if_neg ht] at he
        rcases List.mem_cons.mp he with h | h
        · subst h
          refine ⟨(if isFirst ∧ i = 0 then geminiDisclaimer else []) ++ jsTrimList s,
            by rw [List.append_assoc], ?_, ?_⟩
          · intro hcontra
            exact ht (List.append_eq_nil.mp hcontra).2
          · intro c hc
            rw [List.getLast?_append_of_ne_nil _ ht] at hc
            exact segOk_trim_getLast s hokS c hc
        · exact ih (i + 1) hokRest e h

theorem processChunk_ok (isFirst : Bool) (cur t : List Char) :
    ∀ e ∈ (GeminiClient.processChunk isFirst cur t).1,
      e.isSentenceComplete = true →
      ∃ u, e.text = u ++ ['.', ' '] ∧ u ≠ [] ∧
        ∀ c, u.getLast? = some c → isTermPunct c = false := by
  intro e he hcomp
  simp only [GeminiClient.processChunk] at he
  by_cases hlen : 1 < (splitBoundary (cur ++ t)).length
  · rw [if_pos hlen] at he
    have hok : ∀ s ∈ (splitBoundary (cur ++ t)).dropLast, SegOk s.reverse :=
      splitBoundaryLoop_dropLast_ok (cur ++ t) [] [] false segOk_nil
    exact emitSplit_ok isFirst 0 (splitBoundary (cur ++ t)) hok e he
  · rw [if_neg hlen] at he
    rcases List.mem_cons.mp he with h | h
    · subst h
      exact Bool.noConfusion hcomp
    · simp at h

/-- C10: every chunk emitted with `isSentenceComplete = true` by the
mid-stream boundary split of a streamed response (both in `sendMessage`
— `isFirst` covering the disclaimer-prefixed first sentence — and in
`handleFunctionResult`, the `isFirst = false` instance) is the split
piece with its original terminal punctuation removed and the fixed
string `". "` appended: its text ends in `". "`, and the character
preceding that appended period is not a sentence terminator, so a
sentence that originally ended in `!` or `?` is forwarded ending in a
period instead. -/
theorem gemini_split_removes_terminator (isFirst : Bool) (chunks : List (List Char)) :
    ∀ e ∈ (GeminiClient.streamLoop isFirst [] chunks).1,
      e.isSentenceComplete = true →
      ∃ u, e.text = u ++ ['.', ' '] ∧ u ≠ [] ∧
        ∀ c, u.getLast? = some c → isTermPunct c = false := by
  have main : ∀ (chunks : List (List Char)) (cur : List Char),
      ∀ e ∈ (GeminiClient.streamLoop isFirst cur chunks).1,
        e.isSentenceComplete = true →
        ∃ u, e.text = u ++ ['.', ' '] ∧ u ≠ [] ∧
          ∀ c, u.getLast? = some c → isTermPunct c = false := by
    intro chunks
    induction chunks with
    | nil => intro cur e he; simp [GeminiClient.streamLoop] at he
    | cons t ts ih =>
      intro cur e he hcomp
      simp only [GeminiClient.streamLoop] at he
      rcases List.mem_append.mp he with h | h
      · exact processChunk_ok isFirst cur t e h hcomp
      · exact ih _ e h hcomp
  exact main chunks []

/-- Witness for `gemini_split_removes_terminator`: the question
"Are you okay?" is forwarded as "Are you okay. ". -/
theorem gemini_split_removes_terminator_witness :
    GemEv.mk "Are you okay. ".toList true ∈
      (GeminiClient.streamLoop false [] ["Are you okay? I am fine. Next".toList]).1 ∧
    ∃ u, "Are you okay. ".toList = u ++ ['.', ' '] ∧ u ≠ [] ∧
      ∀ c, u.getLast? = some c → isTermPunct c = false :=
  ⟨by decide,
   gemini_split_removes_terminator false ["Are you okay? I am fine. Next".toList]
     (GemEv.mk "Are you okay. ".toList true) (by decide) rfl⟩

/-! ### Synthesis Bridge (`ElevenLabsTTSClient`, `tts/elevenlabs.ts`)

The client keeps `isPaused`, a `pendingText` queue, and `currentStream`
(the `AbortController` of the most recently started `streamTTS`).
`synthesize(text)` returns early on blank text, queues the text while
paused, and otherwise awaits `streamTTS(text)`, which allocates a *new*
`AbortController` — overwriting `currentStream` without aborting the
previous controller — and then loops: `await reader.read()`; on `done`
emit `complete`; if `isPaused` cancel the reader; otherwise emit a
`chunk`.  An abort (from `pause()`/`stop()`) makes the pending read
reject with an `AbortError`, which `streamTTS` swallows (`return`)
instead of rethrowing, so the caller's `catch` never emits `error` for
it; a genuine network failure is rethrown and emitted as `error` by the
caller (`synthesize`'s catch, or `resume`'s catch which also breaks
its drain loop).  Every `streamTTS` termination path runs
`finally { this.currentStream = null }`.

The asynchronous interleaving is modelled as a labelled step machine:
`streams` holds the in-flight `streamTTS` executions (controller id,
text, chunks not yet delivered by the network, and whether the network
response ends normally or with an error), `aborted` the ids of aborted
controllers, and `TTSEv.started` is a ghost event marking entry into
`streamTTS` (one per synthesis attempt).  `read i` performs one loop
iteration of the `i`-th in-flight execution;  `resume` is modelled
running its drain loop to completion without interleaved operations
(the scenario of the claims), each drained text's `streamTTS` running
atomically against a supplied network response. -/

inductive TTSOutcome
  | ok
  | netError
  deriving Repr, DecidableEq

/-- A vendor network response: the chunk payloads the stream will
deliver, then either a normal end or a mid-stream network error. -/
structure StreamResp where
  chunks : List Nat
  outcome : TTSOutcome
  deriving Repr, DecidableEq

/-- An in-flight `streamTTS` execution. -/
structure StreamExec where
  sid : Nat
  text : String
  remaining : List Nat
  outcome : TTSOutcome
  deriving Repr, DecidableEq

inductive TTSEv
  | started (text : String)
  | chunk (payload : Nat)
  | complete
  | errorEv
  deriving Repr, DecidableEq

structure TTSState where
  isPaused : Bool
  pendingText : List String
  currentStream : Option Nat
  nextId : Nat
  aborted : List Nat
  streams : List StreamExec
  deriving Repr, DecidableEq

/-- A fresh client: not paused, empty queue, no stream. -/
def ElevenLabsTTSClient.init : TTSState := ⟨false, [], none, 0, [], []⟩

/-- Entry into `streamTTS` (lines 122–123): allocate a fresh
`AbortController`, overwrite `currentStream`, register the in-flight
execution.  Nothing is aborted here. -/
def startStream (s : TTSState) (text : String) (r : StreamResp) :
    List TTSEv × TTSState :=
  ([TTSEv.started text],
   { s with currentStream := some s.nextId, nextId := s.nextId + 1,
            streams := s.streams ++ [⟨s.nextId, text, r.chunks, r.outcome⟩] })

/-- `synthesize(text)` (lines 52–61 and the `streamTTS` entry): blank
text is ignored; while paused the text is queued; otherwise a stream
starts, to be driven by `read` steps. -/
def ElevenLabsTTSClient.synthesize (s : TTSState) (text : String) (r : StreamResp) :
    List TTSEv × TTSState :=
  if jsTrim text = "" then ([], s)
  else if s.isPaused then ([], { s with pendingText := s.pendingText ++ [text] })
  else startStream s text r

/-- A `streamTTS` execution terminating (any path):
`finally { this.currentStream = null }` and the execution ends. -/
def endStream (s : TTSState) (i : Nat) : TTSState :=
  { s with currentStream := none, streams := s.streams.eraseIdx i }

/-- One iteration of the `while (true)` read loop of the `i`-th
in-flight execution (lines 163–194): an aborted controller makes the
read reject with `AbortError`, caught and swallowed (no event); an
exhausted normal response emits `complete`; an exhausted failing
response rethrows, and the caller's catch emits `error`; while paused
the reader is cancelled silently; otherwise one `chunk` is emitted. -/
def readStep (s : TTSState) (i : Nat) : List TTSEv × TTSState :=
  match s.streams[i]? with
  | none => ([], s)
  | some ex =>
    if ex.sid ∈ s.aborted then ([], endStream s i)
    else
      match ex.remaining with
      | [] =>
        match ex.outcome with
        | TTSOutcome.ok => ([TTSEv.complete], endStream s i)
        | TTSOutcome.netError => ([TTSEv.errorEv], endStream s i)
      | c :: rest =>
        if s.isPaused then ([], endStream s i)
        else ([TTSEv.chunk c],
              { s with streams := s.streams.set i { ex with remaining := rest } })

/-- `pause()` (lines 74–81): set the flag and abort the *current*
controller, if any. -/
def ElevenLabsTTSClient.pause (s : TTSState) : TTSState :=
  { s with isPaused := true,
           aborted := (match s.currentStream with
                       | some id => id :: s.aborted
                       | none => s.aborted),
           currentStream := none }

/-- `stop()` (lines 105–113): like `pause` but also clears the queue. -/
def ElevenLabsTTSClient.stop (s : TTSState) : TTSState :=
  { s with isPaused := true, pendingText := [],
           aborted := (match s.currentStream with
                       | some id => id :: s.aborted
                       | none => s.aborted),
           currentStream := none }

/-- The events after `started` of an uninterleaved `streamTTS` run, and
whether it threw (a network error rethrown to the caller, which emits
the `error` event — included here — and, in `resume`, breaks). -/
def atomicStreamEvents (paused : Bool) (r : StreamResp) : List TTSEv × Bool :=
  if paused then
    match r.chunks, r.outcome with
    | [], TTSOutcome.ok => ([TTSEv.complete], false)
    | [], TTSOutcome.netError => ([TTSEv.errorEv], true)
    | _ :: _, _ => ([], false)
  else
    match r.outcome with
    | TTSOutcome.ok => (r.chunks.map TTSEv.chunk ++ [TTSEv.complete], false)
    | TTSOutcome.netError => (r.chunks.map TTSEv.chunk ++ [TTSEv.errorEv], true)

/-- An `await streamTTS(text)` that runs to completion with no
interleaved operation: allocate the controller, deliver the response,
`finally` clear `currentStream`. -/
def streamTTSAtomic (s : TTSState) (text : String) (r : StreamResp) :
    List TTSEv × TTSState × Bool :=
  let out := atomicStreamEvents s.isPaused r
  (TTSEv.started text :: out.1,
   { s with nextId := s.nextId + 1, currentStream := none },
   out.2)

/-- The `while (this.pendingText.length > 0 && !this.isPaused)` drain
loop of `resume()`: shift the head, await its stream, break on error.
One fuel unit per drained text. -/
def resumeLoop : Nat → List StreamResp → TTSState → List TTSEv × TTSState
  | 0, _, s => ([], s)
  | fuel + 1, resps, s =>
    if s.isPaused then ([], s)
    else
      match s.pendingText with
      | [] => ([], s)
      | t :: ts =>
        let r := resps.headD ⟨[], TTSOutcome.ok⟩
        let step := streamTTSAtomic { s with pendingText := ts } t r
        if step.2.2 then (step.1, step.2.1)
        else
          let rest := resumeLoop fuel resps.tail step.2.1
          (step.1 ++ rest.1, rest.2)

/-- `resume()` (lines 86–100): clear the pause flag, then drain. -/
def ElevenLabsTTSClient.resume (s : TTSState) (resps : List StreamResp) :
    List TTSEv × TTSState :=
  resumeLoop s.pendingText.length resps { s with isPaused := false }

/-- A client operation, with the network data any started stream will
see. -/
inductive TTSOp
  | synth (text : String) (r : StreamResp)
  | read (i : Nat)
  | pauseOp
  | stopOp
  | resumeOp (resps : List StreamResp)
  deriving Repr, DecidableEq

def ttsStep (s : TTSState) : TTSOp → List TTSEv × TTSState
  | TTSOp.synth t r => ElevenLabsTTSClient.synthesize s t r
  | TTSOp.read i => readStep s i
  | TTSOp.pauseOp => ([], ElevenLabsTTSClient.pause s)
  | TTSOp.stopOp => ([], ElevenLabsTTSClient.stop s)
  | TTSOp.resumeOp rs => ElevenLabsTTSClient.resume s rs

/-- Run a sequence of operations, concatenating the emitted events. -/
def ttsExec : TTSState → List TTSOp → List TTSEv × TTSState
  | s, [] => ([], s)
  | s, op :: ops =>
    let step := ttsStep s op
    let rest := ttsExec step.2 ops
    (step.1 ++ rest.1, rest.2)

/-- The texts of the ghost `started` events: one per synthesis attempt. -/
def startedTexts (evs : List TTSEv) : List String :=
  evs.filterMap (fun e => match e with
    | TTSEv.started t => some t
    | _ => none)

/-- C2 (refuting counterexample): call `synthesize` while a previous
synthesis stream is still in flight.  The trace shows the first stream
emitting its second chunk (`chunk 11`) *after* the second stream has
started, no controller was ever aborted, and both executions are still
in flight — so the previous stream is not cancelled before (or when)
the new one starts streaming, and two synthesis streams are active at
once. -/
theorem tts_synthesize_no_implicit_cancel_cex :
    (ttsExec ElevenLabsTTSClient.init
      [TTSOp.synth "First sentence here." ⟨[10, 11], TTSOutcome.ok⟩,
       TTSOp.read 0,
       TTSOp.synth "Second sentence now." ⟨[20], TTSOutcome.ok⟩,
       TTSOp.read 0]).1
      = [TTSEv.started "First sentence here.", TTSEv.chunk 10,
         TTSEv.started "Second sentence now.", TTSEv.chunk 11] ∧
    (ttsExec ElevenLabsTTSClient.init
      [TTSOp.synth "First sentence here." ⟨[10, 11], TTSOutcome.ok⟩,
       TTSOp.read 0,
       TTSOp.synth "Second sentence now." ⟨[20], TTSOutcome.ok⟩,
       TTSOp.read 0]).2.aborted = [] ∧
    (ttsExec ElevenLabsTTSClient.init
      [TTSOp.synth "First sentence here." ⟨[10, 11], TTSOutcome.ok⟩,
       TTSOp.read 0,
       TTSOp.synth "Second sentence now." ⟨[20], TTSOutcome.ok⟩,
       TTSOp.read 0]).2.streams.length = 2 := by
  refine ⟨?_, ?_, ?_⟩ <;> decide

/-- C2 (amended): `synthesize` never cancels the in-flight previous
stream — it aborts no controller and removes no in-flight execution
(at most it appends a new one); only `pause()`/`stop()` abort, and only
the most recently started stream via `currentStream`. -/
theorem tts_synthesize_preserves_streams (s : TTSState) (text : String) (r : StreamResp) :
    (ElevenLabsTTSClient.synthesize s text r).2.aborted = s.aborted ∧
    (∀ ex ∈ s.streams, ex ∈ (ElevenLabsTTSClient.synthesize s text r).2.streams) := by
  unfold ElevenLabsTTSClient.synthesize
  by_cases h1 : jsTrim text = ""
  · rw [if_pos h1]
    exact ⟨rfl, fun ex hx => hx⟩
  · rw [if_neg h1]
    by_cases h2 : s.isPaused
    · simp only [h2, if_true]
      exact ⟨trivial, fun ex hx => hx⟩
    · simp only [h2, Bool.false_eq_true, if_false, startStream]
      exact ⟨trivial, fun ex hx => List.mem_append_left _ hx⟩

/-- Witness for `tts_synthesize_preserves_streams`: with one stream in
flight, synthesizing another leaves it unaborted and in flight. -/
theorem tts_synthesize_preserves_streams_witness :
    (ElevenLabsTTSClient.synthesize
        ⟨false, [], some 0, 1, [], [⟨0, "Hello there friend.", [5], TTSOutcome.ok⟩]⟩
        "Another sentence." ⟨[6], TTSOutcome.ok⟩).2.aborted
      = (⟨false, [], some 0, 1, [], [⟨0, "Hello there friend.", [5], TTSOutcome.ok⟩]⟩ :
          TTSState).aborted ∧
    (⟨0, "Hello there friend.", [5], TTSOutcome.ok⟩ : StreamExec) ∈
      (ElevenLabsTTSClient.synthesize
        ⟨false, [], some 0, 1, [], [⟨0, "Hello there friend.", [5], TTSOutcome.ok⟩]⟩
        "Another sentence." ⟨[6], TTSOutcome.ok⟩).2.streams :=
  ⟨(tts_synthesize_preserves_streams _ _ _).1,
   (tts_synthesize_preserves_streams _ _ _).2 _ (by decide)⟩

theorem startedTexts_chunks (l : List Nat) :
    startedTexts (l.map TTSEv.chunk) = [] := by
  induction l with
  | nil => rfl
  | cons c cs ih => simpa [startedTexts, List.filterMap_cons] using ih

theorem startedTexts_append (a b : List TTSEv) :
    startedTexts (a ++ b) = startedTexts a ++ startedTexts b := by
  simp [startedTexts, List.filterMap_append]

theorem startedTexts_cons_started (t : String) (l : List TTSEv) :
    startedTexts (TTSEv.started t :: l) = t :: startedTexts l := by
  simp [startedTexts, List.filterMap_cons]

theorem resumeLoop_fifo (fuel : Nat) :
    ∀ (resps : List StreamResp) (s : TTSState),
      s.isPaused = false → s.pendingText.length ≤ fuel →
      (∀ r ∈ resps, r.outcome = TTSOutcome.ok) →
      startedTexts (resumeLoop fuel resps s).1 = s.pendingText ∧
      (resumeLoop fuel resps s).2.pendingText = [] := by
  induction fuel with
  | zero =>
    intro resps s hp hlen _
    have hnil : s.pendingText = [] := List.length_eq_zero.mp (Nat.le_zero.mp hlen)
    exact ⟨by rw [hnil]; rfl, hnil⟩
  | succ n ih =>
    intro resps s hp hlen hok
    rw [resumeLoop, hp]
    simp only [Bool.false_eq_true, if_false]
    cases hpend : s.pendingText with
    | nil => exact ⟨rfl, hpend⟩
    | cons t ts =>
      obtain ⟨r, hr⟩ : ∃ r, resps.headD ⟨[], TTSOutcome.ok⟩ = r := ⟨_, rfl⟩
      rw [hr]
      have hrok : r.outcome = TTSOutcome.ok := by
        rw [← hr]
        cases resps with
        | nil => rfl
        | cons r0 rs => exact hok r0 (List.mem_cons_self _ _)
      have hatomic : atomicStreamEvents false r
          = (r.chunks.map TTSEv.chunk ++ [TTSEv.complete], false) := by
        rw [atomicStreamEvents]
        simp only [Bool.false_eq_true, if_false, hrok]
      have hstep : streamTTSAtomic
            ⟨false, ts, s.currentStream, s.nextId, s.aborted, s.streams⟩ t r
          = (TTSEv.started t :: (r.chunks.map TTSEv.chunk ++ [TTSEv.complete]),
             ⟨false, ts, none, s.nextId + 1, s.aborted, s.streams⟩,
             false) := by
        simp [streamTTSAtomic, hatomic]
      have hih := ih resps.tail
        ⟨false, ts, none, s.nextId + 1, s.aborted, s.streams⟩
        rfl (by have h := hlen; rw [hpend] at h; simpa using Nat.lt_succ_iff.mp h)
        (fun r hr => hok r (List.mem_of_mem_tail hr))
      simp only [hstep]
      simp only [Bool.false_eq_true, if_false]
      constructor
      · rw [List.cons_append, startedTexts_cons_started, startedTexts_append,
          startedTexts_append, startedTexts_chunks]
        have hc : startedTexts [TTSEv.complete] = [] := rfl
        rw [hc, hih.1]
        rfl
      · exact hih.2

/-- C6: (a) in the scenario "stream emitted 2 chunks, then `pause()`,
then `synthesize` of a new text while paused, then `resume()`", the
queued text gets exactly one new synthesis attempt (`started t2` is the
only attempt after the pause), the chunks emitted after `resume` are
exactly the new stream's network chunks — the two already-emitted
chunks are not replayed — the aborted first stream unwinds silently,
and the queue ends empty; (b) in general, `synthesize` while paused
queues instead of starting, and `resume` drains the queued texts FIFO,
one synthesis attempt per queued text. -/
theorem tts_pause_resume_one_attempt (t1 t2 : String) (a b : Nat) (rest r2 : List Nat)
    (h1 : jsTrim t1 ≠ "") (h2 : jsTrim t2 ≠ "") :
    (ttsExec ElevenLabsTTSClient.init
      [TTSOp.synth t1 ⟨a :: b :: rest, TTSOutcome.ok⟩, TTSOp.read 0, TTSOp.read 0,
       TTSOp.pauseOp, TTSOp.synth t2 ⟨[], TTSOutcome.ok⟩, TTSOp.read 0,
       TTSOp.resumeOp [⟨r2, TTSOutcome.ok⟩]]
      = ([TTSEv.started t1, TTSEv.chunk a, TTSEv.chunk b, TTSEv.started t2] ++
           r2.map TTSEv.chunk ++ [TTSEv.complete],
         ⟨false, [], none, 2, [0], []⟩)) ∧
    (∀ (s : TTSState) (text : String) (r : StreamResp), s.isPaused = true →
      jsTrim text ≠ "" →
      ElevenLabsTTSClient.synthesize s text r
        = ([], { s with pendingText := s.pendingText ++ [text] })) ∧
    (∀ (s : TTSState) (resps : List StreamResp),
      (∀ r ∈ resps, r.outcome = TTSOutcome.ok) →
      startedTexts (ElevenLabsTTSClient.resume s resps).1 = s.pendingText ∧
      (ElevenLabsTTSClient.resume s resps).2.pendingText = []) := by
  refine ⟨?_, ?_, ?_⟩
  · simp only [ttsExec, ttsStep, ElevenLabsTTSClient.synthesize, if_neg h1, if_neg h2,
      ElevenLabsTTSClient.init, startStream, readStep, endStream,
      ElevenLabsTTSClient.pause, ElevenLabsTTSClient.resume, resumeLoop,
      streamTTSAtomic, atomicStreamEvents]
    simp
  · intro s text r hp ht
    simp [ElevenLabsTTSClient.synthesize, if_neg ht, hp]
  · intro s resps hok
    exact resumeLoop_fifo s.pendingText.length resps { s with isPaused := false }
      rfl (by simp) hok

/-- Witness for `tts_pause_resume_one_attempt` at concrete texts,
chunks and a concrete paused client with a two-element queue. -/
theorem tts_pause_resume_one_attempt_witness :
    (ttsExec ElevenLabsTTSClient.init
      [TTSOp.synth "Hello there." ⟨1 :: 2 :: [3], TTSOutcome.ok⟩, TTSOp.read 0,
       TTSOp.read 0, TTSOp.pauseOp, TTSOp.synth "Good bye now." ⟨[], TTSOutcome.ok⟩,
       TTSOp.read 0, TTSOp.resumeOp [⟨[7, 8], TTSOutcome.ok⟩]]
      = ([TTSEv.started "Hello there.", TTSEv.chunk 1, TTSEv.chunk 2,
          TTSEv.started "Good bye now."] ++
           ([7, 8] : List Nat).map TTSEv.chunk ++ [TTSEv.complete],
         ⟨false, [], none, 2, [0], []⟩)) ∧
    (startedTexts (ElevenLabsTTSClient.resume
        ⟨true, ["One thing.", "Two things."], none, 5, [4], []⟩
        [⟨[9], TTSOutcome.ok⟩, ⟨[], TTSOutcome.ok⟩]).1
      = ["One thing.", "Two things."] ∧
     (ElevenLabsTTSClient.resume
        ⟨true, ["One thing.", "Two things."], none, 5, [4], []⟩
        [⟨[9], TTSOutcome.ok⟩, ⟨[], TTSOutcome.ok⟩]).2.pendingText = []) :=
  ⟨(tts_pause_resume_one_attempt "Hello there." "Good bye now." 1 2 [3] [7, 8]
      (by decide) (by decide)).1,
   (tts_pause_resume_one_attempt "Hello there." "Good bye now." 1 2 [3] [7, 8]
      (by decide) (by decide)).2.2
     ⟨true, ["One thing.", "Two things."], none, 5, [4], []⟩
     [⟨[9], TTSOutcome.ok⟩, ⟨[], TTSOutcome.ok⟩] (by decide)⟩

/-- C7: (a) a read on a stream whose controller was aborted emits
nothing at all — the `AbortError` is recognised and swallowed, never
surfacing as an `error` event; (b) an `error` event can only come from
a non-aborted stream whose network response genuinely failed; (c)
`pause()` aborts the current controller, so its stream's rejection is
recognised as cancellation. -/
theorem tts_abort_never_error (s : TTSState) (i : Nat) :
    (∀ ex, s.streams[i]? = some ex → ex.sid ∈ s.aborted →
      (readStep s i).1 = []) ∧
    (TTSEv.errorEv ∈ (readStep s i).1 →
      ∃ ex, s.streams[i]? = some ex ∧ ex.sid ∉ s.aborted ∧
        ex.outcome = TTSOutcome.netError ∧ ex.remaining = []) ∧
    (∀ sid, s.currentStream = some sid →
      sid ∈ (ElevenLabsTTSClient.pause s).aborted) := by
  refine ⟨?_, ?_, ?_⟩
  · intro ex hex hab
    simp [readStep, hex, hab]
  · intro hmem
    cases hex : s.streams[i]? with
    | none => simp only [readStep, hex] at hmem; simp at hmem
    | some ex =>
      simp only [readStep, hex] at hmem
      by_cases hab : ex.sid ∈ s.aborted
      · rw [if_pos hab] at hmem; simp at hmem
      · rw [if_neg hab] at hmem
        refine ⟨ex, rfl, hab, ?_⟩
        cases hrem : ex.remaining with
        | nil =>
          rw [hrem] at hmem
          cases hout : ex.outcome with
          | ok => rw [hout] at hmem; simp at hmem
          | netError => exact ⟨rfl, rfl⟩
        | cons c cs =>
          rw [hrem] at hmem
          by_cases hp : s.isPaused = true
          · simp only [hp, if_true] at hmem; simp at hmem
          · simp only [hp, Bool.false_eq_true, if_false] at hmem
            simp at hmem
  · intro sid hs
    simp [ElevenLabsTTSClient.pause, hs]

/-- Witness for `tts_abort_never_error`: a paused-and-aborted stream with
a *failing* network response still emits nothing, and `pause()` marks
the current controller aborted. -/
theorem tts_abort_never_error_witness :
    (readStep ⟨true, [], none, 4, [3], [⟨3, "Oops text.", [9], TTSOutcome.netError⟩]⟩ 0).1
      = [] ∧
    3 ∈ (ElevenLabsTTSClient.pause
        ⟨false, [], some 3, 4, [], [⟨3, "Oops text.", [9], TTSOutcome.netError⟩]⟩).aborted :=
  ⟨(tts_abort_never_error ⟨true, [], none, 4, [3],
      [⟨3, "Oops text.", [9], TTSOutcome.netError⟩]⟩ 0).1
      ⟨3, "Oops text.", [9], TTSOutcome.netError⟩ rfl (by decide),
   (tts_abort_never_error ⟨false, [], some 3, 4, [],
      [⟨3, "Oops text.", [9], TTSOutcome.netError⟩]⟩ 0).2.2 3 rfl⟩

/-! ### Session coordinator barge-in handling (`ws.ts` lines 344–355)

`handleBargeIn(session)` acts only under
`if (session.elevenlabs && session.isTTSPlaying)`: it calls
`session.elevenlabs.pause()`, clears `session.isTTSPlaying`, calls
`session.bargeInDetector.setTTSPlayback(false)` and sends one `status`
message; otherwise it does nothing at all.  The session is modelled
with the fields `handleBargeIn` can touch plus the Response Stream
Bridge's `conversationHistory` (to state that it stays intact); the
remaining `ClientSession` fields are never mentioned in lines
344–355. -/

inductive WsOut
  | statusMsg
  | ttsEndMsg
  | errorMsg
  deriving Repr, DecidableEq

structure SessionSt where
  isTTSPlaying : Bool
  elevenlabs : Option TTSState
  bargeIn : BargeInState
  geminiHistory : Option (List (String × String))
  deriving Repr, DecidableEq

/-- `handleBargeIn`: returns the updated session and the messages sent. -/
def handleBargeIn (s : SessionSt) : SessionSt × List WsOut :=
  match s.elevenlabs with
  | some e =>
    if s.isTTSPlaying then
      ({ s with elevenlabs := some (ElevenLabsTTSClient.pause e),
                isTTSPlaying := false,
                bargeIn := BargeInDetector.setTTSPlayback s.bargeIn false },
       [WsOut.statusMsg])
    else (s, [])
  | none => (s, [])

/-- C8: with synthesis inactive (`isTTSPlaying = false`) a barge-in
event is a strict no-op — the session is returned unchanged, no pause
happens and no message is sent; with synthesis active it pauses the
Synthesis Bridge (aborting its current stream), clears `isTTSPlaying`
and the detector's TTS flag (also resetting its counter), sends one
status notification, and leaves the conversation history untouched. -/
theorem handleBargeIn_frame (s : SessionSt) :
    (s.isTTSPlaying = false → handleBargeIn s = (s, [])) ∧
    (∀ e, s.isTTSPlaying = true → s.elevenlabs = some e →
      handleBargeIn s
        = ({ s with elevenlabs := some (ElevenLabsTTSClient.pause e),
                    isTTSPlaying := false,
                    bargeIn := BargeInDetector.setTTSPlayback s.bargeIn false },
           [WsOut.statusMsg]) ∧
      (handleBargeIn s).1.geminiHistory = s.geminiHistory ∧
      (ElevenLabsTTSClient.pause e).isPaused = true ∧
      (BargeInDetector.setTTSPlayback s.bargeIn false).isPlayingTTS = false ∧
      (BargeInDetector.setTTSPlayback s.bargeIn false).consecutiveSpeechFrames = 0) := by
  constructor
  · intro hoff
    unfold handleBargeIn
    cases s.elevenlabs with
    | none => rfl
    | some e => rw [hoff]; rfl
  · intro e hon helv
    have heq : handleBargeIn s
        = ({ s with elevenlabs := some (ElevenLabsTTSClient.pause e),
                    isTTSPlaying := false,
                    bargeIn := BargeInDetector.setTTSPlayback s.bargeIn false },
           [WsOut.statusMsg]) := by
      unfold handleBargeIn
      rw [helv, hon]
      rfl
    refine ⟨heq, ?_, rfl, rfl, rfl⟩
    rw [heq]

/-- Witness for `handleBargeIn_frame`: a no-op on an idle session, the
full effect on a speaking session. -/
theorem handleBargeIn_frame_witness :
    (handleBargeIn ⟨false, some ElevenLabsTTSClient.init, ⟨false, 0⟩, some [("user", "hi")]⟩
      = (⟨false, some ElevenLabsTTSClient.init, ⟨false, 0⟩, some [("user", "hi")]⟩, [])) ∧
    (handleBargeIn ⟨true, some ⟨false, [], some 0, 1, [], []⟩, ⟨true, 2⟩, some [("user", "hi")]⟩
      = (⟨false, some (ElevenLabsTTSClient.pause ⟨false, [], some 0, 1, [], []⟩),
          BargeInDetector.setTTSPlayback ⟨true, 2⟩ false, some [("user", "hi")]⟩,
         [WsOut.statusMsg])) :=
  ⟨(handleBargeIn_frame
      ⟨false, some ElevenLabsTTSClient.init, ⟨false, 0⟩, some [("user", "hi")]⟩).1 rfl,
   ((handleBargeIn_frame
      ⟨true, some ⟨false, [], some 0, 1, [], []⟩, ⟨true, 2⟩, some [("user", "hi")]⟩).2
      ⟨false, [], some 0, 1, [], []⟩ rfl rfl).1⟩

/-! ### Playback Jitter Buffer (`StreamPlayer`, `web/src/lib/ws.ts`)

`addChunk` pushes the decoded chunk, then — if not yet playing and
`getBufferDurationMs() >= minBufferMs` — calls `startPlayback()`
(which requires an initialised audio context and sets `isPlaying`),
and finally, if `getBufferDurationMs() > maxBufferMs`, `shift()`s the
*oldest* chunk off the front.  `getBufferDurationMs` estimates 100 ms
per queued chunk.  Defaults: `minBufferMs = 100`, `maxBufferMs = 500`.
Chunks are modelled by opaque payload ids (the base64 decode does not
affect queueing); `pause`/`resume`/`stop` and the chunk consumption of
`processBuffer` are included as further operations on the state. -/

structure PlayerState where
  buffer : List Nat
  isPlaying : Bool
  ctxReady : Bool
  minBufferMs : Nat
  maxBufferMs : Nat
  deriving Repr, DecidableEq

/-- A fresh player with default thresholds (audio context not yet
initialised). -/
def StreamPlayer.init : PlayerState := ⟨[], false, false, 100, 500⟩

/-- `getBufferDurationMs`: 0 for an empty queue, else ~100 ms per chunk. -/
def StreamPlayer.getBufferDurationMs (s : PlayerState) : Nat :=
  if s.buffer = [] then 0 else s.buffer.length * 100

/-- `startPlayback`: bails out without an audio context or when already
playing; otherwise sets `isPlaying`. -/
def StreamPlayer.startPlayback (s : PlayerState) : PlayerState :=
  if s.ctxReady = false ∨ s.isPlaying = true then s
  else { s with isPlaying := true }

/-- `addChunk` (lines 611–641): push, maybe start, maybe drop the
oldest. -/
def StreamPlayer.addChunk (s : PlayerState) (c : Nat) : PlayerState :=
  let s1 : PlayerState := { s with buffer := s.buffer ++ [c] }
  let s2 := if s1.isPlaying = false ∧
                s1.minBufferMs ≤ StreamPlayer.getBufferDurationMs s1
            then StreamPlayer.startPlayback s1 else s1
  if s2.maxBufferMs < StreamPlayer.getBufferDurationMs s2
  then { s2 with buffer := s2.buffer.tail } else s2

def StreamPlayer.pausePlayer (s : PlayerState) : PlayerState :=
  { s with isPlaying := false }

def StreamPlayer.resumePlayer (s : PlayerState) : PlayerState :=
  if s.isPlaying = false ∧ s.buffer ≠ [] then StreamPlayer.startPlayback s else s

def StreamPlayer.stopPlayer (s : PlayerState) : PlayerState :=
  { s with isPlaying := false, buffer := [] }

/-- One `shift()` of `processBuffer`'s consumption loop. -/
def StreamPlayer.consumeChunk (s : PlayerState) : PlayerState :=
  if s.isPlaying = true ∧ s.buffer ≠ [] then { s with buffer := s.buffer.tail } else s

/-- `initialize()` succeeded: the audio context exists. -/
def StreamPlayer.readyCtx (s : PlayerState) : PlayerState :=
  { s with ctxReady := true }

inductive PlayerOp
  | add (c : Nat)
  | pauseOp
  | resumeOp
  | stopOp
  | consume
  | readyOp
  deriving Repr, DecidableEq

def playerStep (s : PlayerState) : PlayerOp → PlayerState
  | PlayerOp.add c => StreamPlayer.addChunk s c
  | PlayerOp.pauseOp => StreamPlayer.pausePlayer s
  | PlayerOp.resumeOp => StreamPlayer.resumePlayer s
  | PlayerOp.stopOp => StreamPlayer.stopPlayer s
  | PlayerOp.consume => StreamPlayer.consumeChunk s
  | PlayerOp.readyOp => StreamPlayer.readyCtx s

/-- A client run from a fresh player. -/
def playerRun (ops : List PlayerOp) : PlayerState :=
  ops.foldl playerStep StreamPlayer.init

theorem startPlayback_buffer (s : PlayerState) :
    (StreamPlayer.startPlayback s).buffer = s.buffer := by
  unfold StreamPlayer.startPlayback
  split <;> rfl

theorem startPlayback_fields (s : PlayerState) :
    (StreamPlayer.startPlayback s).minBufferMs = s.minBufferMs ∧
    (StreamPlayer.startPlayback s).maxBufferMs = s.maxBufferMs := by
  unfold StreamPlayer.startPlayback
  split <;> exact ⟨rfl, rfl⟩

theorem dur_push (s : PlayerState) (c : Nat) :
    StreamPlayer.getBufferDurationMs { s with buffer := s.buffer ++ [c] }
      = (s.buffer.length + 1) * 100 := by
  simp [StreamPlayer.getBufferDurationMs]

/-- Characterisation of `addChunk`: the final queue is the pushed queue,
with the oldest entry shifted off exactly when the pushed duration
exceeds `maxBufferMs`; playback starts exactly under `startPlayback`'s
own guard; the thresholds are untouched. -/
theorem addChunk_char (s : PlayerState) (c : Nat) :
    (StreamPlayer.addChunk s c).buffer
      = (if s.maxBufferMs < (s.buffer.length + 1) * 100
         then (s.buffer ++ [c]).tail else s.buffer ++ [c]) ∧
    (StreamPlayer.addChunk s c).maxBufferMs = s.maxBufferMs ∧
    (StreamPlayer.addChunk s c).minBufferMs = s.minBufferMs ∧
    (StreamPlayer.addChunk s c).isPlaying
      = (if s.isPlaying = false ∧ s.minBufferMs ≤ (s.buffer.length + 1) * 100
         then (if s.ctxReady = false ∨ s.isPlaying = true then s.isPlaying else true)
         else s.isPlaying) := by
  simp only [StreamPlayer.addChunk, StreamPlayer.startPlayback,
    StreamPlayer.getBufferDurationMs]
  split_ifs <;> simp_all

theorem playerStep_inv (s : PlayerState) (op : PlayerOp)
    (hmax : s.maxBufferMs = 500) (hlen : s.buffer.length ≤ 5) :
    (playerStep s op).maxBufferMs = 500 ∧ (playerStep s op).buffer.length ≤ 5 := by
  cases op with
  | add c =>
    obtain ⟨hb, hm, _, _⟩ := addChunk_char s c
    refine ⟨by rw [playerStep, hm, hmax], ?_⟩
    rw [playerStep, hb]
    by_cases hdrop : s.maxBufferMs < (s.buffer.length + 1) * 100
    · rw [if_pos hdrop]
      simp only [List.length_tail, List.length_append, List.length_cons,
        List.length_nil]
      omega
    · rw [if_neg hdrop]
      simp only [List.length_append, List.length_cons, List.length_nil]
      omega
  | pauseOp => exact ⟨hmax, hlen⟩
  | resumeOp =>
    unfold playerStep StreamPlayer.resumePlayer StreamPlayer.startPlayback
    split_ifs <;> exact ⟨hmax, hlen⟩
  | stopOp => exact ⟨hmax, Nat.zero_le _⟩
  | consume =>
    unfold playerStep StreamPlayer.consumeChunk
    split_ifs
    · refine ⟨hmax, ?_⟩
      simp only [List.length_tail]
      omega
    · exact ⟨hmax, hlen⟩
  | readyOp => exact ⟨hmax, hlen⟩

theorem playerRun_inv (ops : List PlayerOp) :
    ∀ s : PlayerState, s.maxBufferMs = 500 → s.buffer.length ≤ 5 →
      (ops.foldl playerStep s).maxBufferMs = 500 ∧
      (ops.foldl playerStep s).buffer.length ≤ 5 := by
  induction ops with
  | nil => intro s hmax hlen; exact ⟨hmax, hlen⟩
  | cons op ops ih =>
    intro s hmax hlen
    obtain ⟨h1, h2⟩ := playerStep_inv s op hmax hlen
    exact ih (playerStep s op) h1 h2

/-- C9: (a) playback starts only when the buffered duration has reached
the (default 100 ms) minimum: any step that flips `isPlaying` from
`false` to `true` leaves at least 100 ms buffered; (b) along every
trace from a fresh player the buffered duration stays bounded by the
500 ms maximum; (c) `addChunk` drops exactly the oldest queued chunk
precisely when the pushed queue exceeds the maximum. -/
theorem streamPlayer_jitter :
    (∀ (s : PlayerState) (op : PlayerOp),
      s.minBufferMs = 100 → s.maxBufferMs = 500 → s.isPlaying = false →
      (playerStep s op).isPlaying = true →
      100 ≤ StreamPlayer.getBufferDurationMs (playerStep s op)) ∧
    (∀ ops : List PlayerOp, StreamPlayer.getBufferDurationMs (playerRun ops) ≤ 500) ∧
    (∀ (s : PlayerState) (c : Nat),
      (s.maxBufferMs < (s.buffer.length + 1) * 100 →
        (StreamPlayer.addChunk s c).buffer = (s.buffer ++ [c]).tail) ∧
      (¬ s.maxBufferMs < (s.buffer.length + 1) * 100 →
        (StreamPlayer.addChunk s c).buffer = s.buffer ++ [c])) := by
  refine ⟨?_, ?_, ?_⟩
  · intro s op hmin hmax hoff hres
    cases op with
    | add c =>
      obtain ⟨hb, _, _, _⟩ := addChunk_char s c
      show 100 ≤ StreamPlayer.getBufferDurationMs (StreamPlayer.addChunk s c)
      rw [StreamPlayer.getBufferDurationMs, hb]
      by_cases hdrop : s.maxBufferMs < (s.buffer.length + 1) * 100
      · rw [if_pos hdrop]
        have h5 : 5 ≤ s.buffer.length := by omega
        have hne : (s.buffer ++ [c]).tail ≠ [] := by
          have : (s.buffer ++ [c]).tail.length = s.buffer.length := by
            simp
          intro hcontra
          rw [hcontra] at this
          simp at this
          omega
        rw [if_neg hne]
        have : (s.buffer ++ [c]).tail.length = s.buffer.length := by simp
        rw [this]
        omega
      · rw [if_neg hdrop]
        have hne : s.buffer ++ [c] ≠ [] := by simp
        rw [if_neg hne]
        simp only [List.length_append, List.length_cons, List.length_nil]
        omega
    | pauseOp => rw [playerStep, StreamPlayer.pausePlayer] at hres; simp at hres
    | resumeOp =>
      rw [playerStep, StreamPlayer.resumePlayer] at hres
      by_cases hc : s.isPlaying = false ∧ s.buffer ≠ []
      · show 100 ≤ StreamPlayer.getBufferDurationMs (playerStep s PlayerOp.resumeOp)
        rw [playerStep, StreamPlayer.resumePlayer, if_pos hc,
          StreamPlayer.getBufferDurationMs, startPlayback_buffer, if_neg hc.2]
        have : 1 ≤ s.buffer.length := by
          cases hbuf : s.buffer with
          | nil => exact absurd hbuf hc.2
          | cons a l => simp
        omega
      · rw [if_neg hc] at hres
        rw [hoff] at hres
        exact Bool.noConfusion hres
    | stopOp => rw [playerStep, StreamPlayer.stopPlayer] at hres; simp at hres
    | consume =>
      rw [playerStep, StreamPlayer.consumeChunk] at hres
      by_cases hc : s.isPlaying = true ∧ s.buffer ≠ []
      · exact absurd (hoff ▸ hc.1) (by simp)
      · rw [if_neg hc, hoff] at hres
        exact Bool.noConfusion hres
    | readyOp =>
      rw [playerStep, StreamPlayer.readyCtx] at hres
      rw [hoff] at hres
      exact Bool.noConfusion hres
  · intro ops
    obtain ⟨_, hlen⟩ := playerRun_inv ops StreamPlayer.init rfl (by simp [StreamPlayer.init])
    rw [playerRun, StreamPlayer.getBufferDurationMs]
    split_ifs
    · exact Nat.zero_le _
    · omega
  · intro s c
    obtain ⟨hb, _, _, _⟩ := addChunk_char s c
    constructor
    · intro hdrop; rw [hb, if_pos hdrop]
    · intro hdrop; rw [hb, if_neg hdrop]

/-- Witness for `streamPlayer_jitter`: adding a second chunk to a ready
idle player starts playback with 200 ms buffered, and pushing a sixth
chunk over the 500 ms cap drops the oldest. -/
theorem streamPlayer_jitter_witness :
    100 ≤ StreamPlayer.getBufferDurationMs
      (playerStep ⟨[1], false, true, 100, 500⟩ (PlayerOp.add 2)) ∧
    (StreamPlayer.addChunk ⟨[1, 2, 3, 4, 5], true, true, 100, 500⟩ 6).buffer
      = (([1, 2, 3, 4, 5] : List Nat) ++ [6]).tail :=
  ⟨streamPlayer_jitter.1 ⟨[1], false, true, 100, 500⟩ (PlayerOp.add 2)
    rfl rfl rfl (by decide),
   (streamPlayer_jitter.2.2 ⟨[1, 2, 3, 4, 5], true, true, 100, 500⟩ 6).1 (by decide)⟩
